import Mathlib

/-!
Verification development for the Morandi sales dashboard
(`src/App.tsx`, `src/components/DataInput.tsx` / `SalesDashboard`,
`src/types.ts`).

The JavaScript `Date` object operates on the proleptic Gregorian
calendar over UTC.  We embed its arithmetic with exact integer
mathematics: epoch days (days since 1970-01-01) and epoch milliseconds.
Lean's `/` and `%` on `Int` round toward negative infinity for positive
divisors, which agrees with the floor semantics of the JS date
algorithms.  The runtime is modelled in a UTC locale, so
`getFullYear`/`getMonth`/`getDate` coincide with their UTC
counterparts.
-/

/-- A civil (proleptic Gregorian) date: year, month (1-12), day (1-31). -/
structure Civil where
  y : Int
  m : Int
  d : Int
deriving DecidableEq, Repr

/-- Days since 1970-01-01 of a civil date (Hinnant's `days_from_civil`,
the arithmetic behind ECMAScript `MakeDay`). -/
def daysFromCivil (c : Civil) : Int :=
  let y' := if c.m ≤ 2 then c.y - 1 else c.y
  let era := y' / 400
  let yoe := y' - era * 400
  let mp := (c.m + 9) % 12
  let doy := (153 * mp + 2) / 5 + c.d - 1
  let doe := yoe * 365 + yoe / 4 - yoe / 100 + doy
  era * 146097 + doe - 719468

/-- First day (relative to March 1 of year 0 of the era) of year-of-era
`k`: `365k` plus the leap days accumulated before year `k`. -/
def startYoe (k : Int) : Int := 365 * k + k / 4 - k / 100

/-- Hinnant's auxiliary for recovering the year-of-era from the
day-of-era: subtract the accumulated leap days so that dividing by 365
yields the year. -/
def Nfun (n : Int) : Int := n - n / 1460 + n / 36524 - n / 146096

/-- Exclusive upper day-of-era bound of year-of-era `k`. -/
def upperYoe (k : Int) : Int := if k = 399 then 146097 else startYoe (k + 1)

/-- Components of `civil_from_days` (ECMAScript
`YearFromTime`/`MonthFromTime`/`DateFromTime`), factored for proof. -/
def eraOf (z : Int) : Int := (z + 719468) / 146097

/-- Day of era (0 ≤ doe < 146097). -/
def doeOf (z : Int) : Int := z + 719468 - eraOf z * 146097

/-- Year of era (0-399). -/
def yoeOf (z : Int) : Int := Nfun (doeOf z) / 365

/-- Day of the (March-based) year (0-365). -/
def doyOf (z : Int) : Int := doeOf z - startYoe (yoeOf z)

/-- March-based month index (0 = March, ..., 11 = February). -/
def mpOf (z : Int) : Int := (5 * doyOf z + 2) / 153

/-- Day of month (1-31). -/
def dayOf (z : Int) : Int := doyOf z - (153 * mpOf z + 2) / 5 + 1

/-- Civil month (1-12). -/
def monthOf (z : Int) : Int := if mpOf z < 10 then mpOf z + 3 else mpOf z - 9

/-- Civil year. -/
def yearOf (z : Int) : Int :=
  (yoeOf z + eraOf z * 400) + (if monthOf z ≤ 2 then 1 else 0)

/-- Civil date of a count of days since 1970-01-01. -/
def civilFromDays (z : Int) : Civil := ⟨yearOf z, monthOf z, dayOf z⟩

/-- Gregorian leap-year test. -/
def isLeap (y : Int) : Bool := (y % 4 = 0 && y % 100 ≠ 0) || y % 400 = 0

/-- Length of a month in a given year. -/
def daysInMonth (y m : Int) : Int :=
  if m = 2 then (if isLeap y then 29 else 28)
  else if m = 4 ∨ m = 6 ∨ m = 9 ∨ m = 11 then 30
  else 31

/-- A valid civil date, as JS `Date` accepts it from an ISO string. -/
def validCivil (c : Civil) : Bool :=
  decide (1 ≤ c.m) && decide (c.m ≤ 12) && decide (1 ≤ c.d) &&
  decide (c.d ≤ daysInMonth c.y c.m)

theorem doeOf_bounds (z : Int) : 0 ≤ doeOf z ∧ doeOf z < 146097 := by
  unfold doeOf eraOf; omega

theorem Nfun_step (n : Int) (h0 : 0 ≤ n) (h1 : n + 1 ≤ 146096) :
    Nfun n ≤ Nfun (n + 1) := by
  unfold Nfun; omega

theorem Nfun_mono (a b : Int) (h0 : 0 ≤ a) (hab : a ≤ b) (hb : b ≤ 146096) :
    Nfun a ≤ Nfun b := by
  obtain ⟨k, hk⟩ : ∃ k : Nat, b = a + k := ⟨(b - a).toNat, by omega⟩
  subst hk
  induction k with
  | zero => simp
  | succ k ih =>
    have h1 : Nfun a ≤ Nfun (a + k) := ih (by omega) (by omega)
    have h2 : Nfun (a + k) ≤ Nfun (a + k + 1) := Nfun_step _ (by omega) (by omega)
    have h3 : a + (((k + 1) : Nat) : Int) = a + k + 1 := by push_cast; ring
    rw [h3]
    exact le_trans h1 h2

set_option maxRecDepth 4000 in
theorem yoe_boundary : ∀ k : Nat, k < 400 →
    365 * (k : Int) ≤ Nfun (startYoe (k : Int)) ∧
    Nfun (upperYoe (k : Int) - 1) ≤ 365 * (k : Int) + 364 := by decide

theorem exists_yoe (n : Int) (h0 : 0 ≤ n) (h1 : n < 146097) :
    ∃ k : Int, 0 ≤ k ∧ k ≤ 399 ∧ startYoe k ≤ n ∧ n < upperYoe k := by
  have aux : ∀ j : Nat, (j : Int) ≤ 399 → n < upperYoe (j : Int) →
      ∃ k : Int, 0 ≤ k ∧ k ≤ 399 ∧ startYoe k ≤ n ∧ n < upperYoe k := by
    intro j
    induction j with
    | zero =>
      intro _ hu
      refine ⟨0, le_refl 0, by omega, by unfold startYoe; omega, ?_⟩
      simpa using hu
    | succ j ih =>
      intro hj hu
      have hcast : (((j + 1) : Nat) : Int) = (j : Int) + 1 := by push_cast; ring
      rw [hcast] at hj hu
      by_cases h : startYoe ((j : Int) + 1) ≤ n
      · exact ⟨(j : Int) + 1, by omega, by omega, h, hu⟩
      · have hju : n < upperYoe (j : Int) := by
          unfold upperYoe
          rw [if_neg (by omega : ¬ ((j : Int) = 399))]
          omega
        exact ih (by omega) hju
  have h399 : n < upperYoe ((399 : Nat) : Int) := by
    unfold upperYoe; norm_num; omega
  exact aux 399 (by norm_num) h399

theorem yoe_char (n : Int) (h0 : 0 ≤ n) (h1 : n < 146097) :
    0 ≤ Nfun n / 365 ∧ Nfun n / 365 ≤ 399 ∧
    startYoe (Nfun n / 365) ≤ n ∧ n < upperYoe (Nfun n / 365) := by
  obtain ⟨k, hk0, hk399, hkl, hku⟩ := exists_yoe n h0 h1
  have hcast : ((k.toNat : Int)) = k := by omega
  have hb := yoe_boundary k.toNat (by omega)
  rw [hcast] at hb
  have hs0 : 0 ≤ startYoe k := by unfold startYoe; omega
  have hu146097 : upperYoe k ≤ 146097 := by
    unfold upperYoe startYoe; split_ifs <;> omega
  have h2 : Nfun (startYoe k) ≤ Nfun n := Nfun_mono _ _ hs0 hkl (by omega)
  have h3 : Nfun n ≤ Nfun (upperYoe k - 1) := Nfun_mono _ _ h0 (by omega) (by omega)
  have heq : Nfun n / 365 = k := by omega
  rw [heq]
  exact ⟨hk0, hk399, hkl, hku⟩

theorem yoe_facts (z : Int) :
    0 ≤ yoeOf z ∧ yoeOf z ≤ 399 ∧
    startYoe (yoeOf z) ≤ doeOf z ∧ doeOf z < upperYoe (yoeOf z) := by
  have h := doeOf_bounds z
  have h2 := yoe_char (doeOf z) h.1 h.2
  exact h2

theorem doy_facts (z : Int) :
    0 ≤ doyOf z ∧ doyOf z ≤ 365 ∧
    (doyOf z = 365 →
      (yoeOf z + 1) % 4 = 0 ∧ ((yoeOf z + 1) % 100 ≠ 0 ∨ yoeOf z = 399)) := by
  have h := yoe_facts z
  unfold upperYoe at h
  unfold doyOf startYoe at *
  split_ifs at h <;> omega

theorem mp_facts (z : Int) : 0 ≤ mpOf z ∧ mpOf z ≤ 11 := by
  have h := doy_facts z
  unfold mpOf
  omega
theorem recon_case1 (E A doy mp : Int) (h1 : 0 ≤ A) (h2 : A ≤ 399)
    (hmp : mp = (5 * doy + 2) / 153) (h3 : 0 ≤ doy) (h4 : doy ≤ 365) (hc : mp < 10) :
    daysFromCivil ⟨A + E * 400, mp + 3, doy - (153 * mp + 2) / 5 + 1⟩ =
      E * 146097 + (365 * A + A / 4 - A / 100 + doy) - 719468 := by
  simp only [daysFromCivil]
  rw [if_neg (show ¬ ((mp + 3 : Int) ≤ 2) from by omega)]
  rw [show (A + E * 400) / 400 = E from by omega]
  rw [show A + E * 400 - E * 400 = A from by ring]
  rw [show (mp + 3 + 9) % 12 = mp from by omega]
  ring_nf

theorem recon_case2 (E A doy mp : Int) (h1 : 0 ≤ A) (h2 : A ≤ 399)
    (hmp : mp = (5 * doy + 2) / 153) (h3 : 0 ≤ doy) (h4 : doy ≤ 365) (hc : 10 ≤ mp) :
    daysFromCivil ⟨A + E * 400 + 1, mp - 9, doy - (153 * mp + 2) / 5 + 1⟩ =
      E * 146097 + (365 * A + A / 4 - A / 100 + doy) - 719468 := by
  have hc2 : mp ≤ 11 := by omega
  simp only [daysFromCivil]
  rw [if_pos (show (mp - 9 : Int) ≤ 2 from by omega)]
  rw [show A + E * 400 + 1 - 1 = A + E * 400 from by ring]
  rw [show (A + E * 400) / 400 = E from by omega]
  rw [show A + E * 400 - E * 400 = A from by ring]
  rw [show (mp - 9 + 9) % 12 = mp from by omega]
  ring_nf

theorem jan1_val (E A : Int) (h1 : 0 ≤ A) (h2 : A ≤ 399) :
    daysFromCivil ⟨A + E * 400 + 1, 1, 1⟩ =
      E * 146097 + (365 * A + A / 4 - A / 100) + 306 - 719468 := by
  simp only [daysFromCivil]
  rw [if_pos (show ((1 : Int)) ≤ 2 from by norm_num)]
  rw [show A + E * 400 + 1 - 1 = A + E * 400 from by ring]
  rw [show (A + E * 400) / 400 = E from by omega]
  rw [show A + E * 400 - E * 400 = A from by ring]
  norm_num
  ring
theorem daysFromCivil_civilFromDays (z : Int) :
    daysFromCivil (civilFromDays z) = z := by
  have hyoe := yoe_facts z
  have hdoy := doy_facts z
  have hmp := mp_facts z
  have hdoydef : doyOf z = doeOf z - startYoe (yoeOf z) := rfl
  have hmpdef : mpOf z = (5 * doyOf z + 2) / 153 := rfl
  have hdoedef : doeOf z = z + 719468 - eraOf z * 146097 := rfl
  have hd : dayOf z = doyOf z - (153 * mpOf z + 2) / 5 + 1 := rfl
  unfold startYoe at hdoydef
  show daysFromCivil ⟨yearOf z, monthOf z, dayOf z⟩ = z
  rcases lt_or_le (mpOf z) 10 with hc | hc
  · have hm2 : monthOf z = mpOf z + 3 := by unfold monthOf; rw [if_pos hc]
    have hy : yearOf z = yoeOf z + eraOf z * 400 := by
      unfold yearOf
      rw [hm2, if_neg (show ¬ ((mpOf z + 3 : Int) ≤ 2) from by omega)]
      ring
    rw [hy, hm2, hd,
      recon_case1 (eraOf z) (yoeOf z) (doyOf z) (mpOf z) (by omega) (by omega)
        hmpdef (by omega) (by omega) hc]
    omega
  · have hm2 : monthOf z = mpOf z - 9 := by
      unfold monthOf; rw [if_neg (show ¬ (mpOf z < 10) from by omega)]
    have hy : yearOf z = yoeOf z + eraOf z * 400 + 1 := by
      unfold yearOf
      rw [hm2, if_pos (show (mpOf z - 9 : Int) ≤ 2 from by omega)]
    rw [hy, hm2, hd,
      recon_case2 (eraOf z) (yoeOf z) (doyOf z) (mpOf z) (by omega) (by omega)
        hmpdef (by omega) (by omega) hc]
    omega

theorem year_bounds (z : Int) :
    daysFromCivil ⟨yearOf z, 1, 1⟩ ≤ z ∧ z < daysFromCivil ⟨yearOf z + 1, 1, 1⟩ := by
  have hyoe := yoe_facts z
  have hdoy := doy_facts z
  have hmp := mp_facts z
  have hdoydef : doyOf z = doeOf z - startYoe (yoeOf z) := rfl
  have hmpdef : mpOf z = (5 * doyOf z + 2) / 153 := rfl
  have hdoedef : doeOf z = z + 719468 - eraOf z * 146097 := rfl
  have hq : 153 * mpOf z ≤ 5 * doyOf z + 2 ∧ 5 * doyOf z + 2 ≤ 153 * mpOf z + 152 := by
    rw [hmpdef]; omega
  unfold startYoe at hdoydef
  rcases lt_or_le (mpOf z) 10 with hc | hc
  · have hy : yearOf z = yoeOf z + eraOf z * 400 := by
      unfold yearOf monthOf
      rw [if_pos hc, if_neg (show ¬ ((mpOf z + 3 : Int) ≤ 2) from by omega)]
      ring
    constructor
    · rcases (show yoeOf z = 0 ∨ 1 ≤ yoeOf z from by omega) with h0 | h0
      · rw [hy, show yoeOf z + eraOf z * 400 = 399 + (eraOf z - 1) * 400 + 1 from by omega]
        rw [jan1_val (eraOf z - 1) 399 (by norm_num) (by norm_num)]
        omega
      · rw [hy, show yoeOf z + eraOf z * 400 = (yoeOf z - 1) + eraOf z * 400 + 1 from by ring]
        rw [jan1_val (eraOf z) (yoeOf z - 1) (by omega) (by omega)]
        omega
    · rw [hy]
      rw [jan1_val (eraOf z) (yoeOf z) (by omega) (by omega)]
      omega
  · have hy : yearOf z = yoeOf z + eraOf z * 400 + 1 := by
      unfold yearOf monthOf
      rw [if_neg (show ¬ (mpOf z < 10) from by omega),
        if_pos (show (mpOf z - 9 : Int) ≤ 2 from by omega)]
    constructor
    · rw [hy, jan1_val (eraOf z) (yoeOf z) (by omega) (by omega)]
      omega
    · rcases (show yoeOf z = 399 ∨ yoeOf z ≤ 398 from by omega) with h399 | h399
      · rw [hy, show yoeOf z + eraOf z * 400 + 1 + 1 = 0 + (eraOf z + 1) * 400 + 1 from by omega]
        rw [jan1_val (eraOf z + 1) 0 (by norm_num) (by norm_num)]
        omega
      · rw [hy, show yoeOf z + eraOf z * 400 + 1 + 1 = (yoeOf z + 1) + eraOf z * 400 + 1 from by ring]
        rw [jan1_val (eraOf z) (yoeOf z + 1) (by omega) (by omega)]
        omega
theorem validCivil_civilFromDays (z : Int) :
    validCivil (civilFromDays z) = true := by
  have hyoe := yoe_facts z
  have hdoy := doy_facts z
  have hmp := mp_facts z
  have hmpdef : mpOf z = (5 * doyOf z + 2) / 153 := rfl
  have hd : dayOf z = doyOf z - (153 * mpOf z + 2) / 5 + 1 := rfl
  have hq : 153 * mpOf z ≤ 5 * doyOf z + 2 ∧ 5 * doyOf z + 2 ≤ 153 * mpOf z + 152 := by
    rw [hmpdef]; omega
  show validCivil ⟨yearOf z, monthOf z, dayOf z⟩ = true
  simp only [validCivil, Bool.and_eq_true, decide_eq_true_eq]
  refine ⟨⟨⟨?_, ?_⟩, ?_⟩, ?_⟩
  · unfold monthOf; split_ifs <;> omega
  · unfold monthOf; split_ifs <;> omega
  · rw [hd]; omega
  · have h12 : mpOf z = 0 ∨ mpOf z = 1 ∨ mpOf z = 2 ∨ mpOf z = 3 ∨ mpOf z = 4 ∨
        mpOf z = 5 ∨ mpOf z = 6 ∨ mpOf z = 7 ∨ mpOf z = 8 ∨ mpOf z = 9 ∨
        mpOf z = 10 ∨ mpOf z = 11 := by omega
    rcases h12 with h|h|h|h|h|h|h|h|h|h|h|h
    · rw [hd, h, show monthOf z = 3 from by norm_num [monthOf, h]]
      norm_num [daysInMonth]; omega
    · rw [hd, h, show monthOf z = 4 from by norm_num [monthOf, h]]
      norm_num [daysInMonth]; omega
    · rw [hd, h, show monthOf z = 5 from by norm_num [monthOf, h]]
      norm_num [daysInMonth]; omega
    · rw [hd, h, show monthOf z = 6 from by norm_num [monthOf, h]]
      norm_num [daysInMonth]; omega
    · rw [hd, h, show monthOf z = 7 from by norm_num [monthOf, h]]
      norm_num [daysInMonth]; omega
    · rw [hd, h, show monthOf z = 8 from by norm_num [monthOf, h]]
      norm_num [daysInMonth]; omega
    · rw [hd, h, show monthOf z = 9 from by norm_num [monthOf, h]]
      norm_num [daysInMonth]; omega
    · rw [hd, h, show monthOf z = 10 from by norm_num [monthOf, h]]
      norm_num [daysInMonth]; omega
    · rw [hd, h, show monthOf z = 11 from by norm_num [monthOf, h]]
      norm_num [daysInMonth]; omega
    · rw [hd, h, show monthOf z = 12 from by norm_num [monthOf, h]]
      norm_num [daysInMonth]; omega
    · rw [hd, h, show monthOf z = 1 from by norm_num [monthOf, h]]
      norm_num [daysInMonth]; omega
    · have hm2 : monthOf z = 2 := by norm_num [monthOf, h]
      have hy : yearOf z = yoeOf z + eraOf z * 400 + 1 := by
        unfold yearOf
        rw [hm2, if_pos (show (2 : Int) ≤ 2 from by norm_num)]
      have e4 : (yoeOf z + eraOf z * 400 + 1) % 4 = (yoeOf z + 1) % 4 := by
        conv_lhs =>
          rw [show yoeOf z + eraOf z * 400 + 1 =
            (yoeOf z + 1) + 4 * (eraOf z * 100) from by ring]
        rw [Int.add_mul_emod_self_left]
      have e100 : (yoeOf z + eraOf z * 400 + 1) % 100 = (yoeOf z + 1) % 100 := by
        conv_lhs =>
          rw [show yoeOf z + eraOf z * 400 + 1 =
            (yoeOf z + 1) + 100 * (eraOf z * 4) from by ring]
        rw [Int.add_mul_emod_self_left]
      have e400 : (yoeOf z + eraOf z * 400 + 1) % 400 = (yoeOf z + 1) % 400 := by
        conv_lhs =>
          rw [show yoeOf z + eraOf z * 400 + 1 =
            (yoeOf z + 1) + 400 * eraOf z from by ring]
        rw [Int.add_mul_emod_self_left]
      rw [hd, h, hm2, hy]
      rw [show daysInMonth (yoeOf z + eraOf z * 400 + 1) 2 =
        if isLeap (yoeOf z + eraOf z * 400 + 1) then 29 else 28 from by simp [daysInMonth]]
      unfold isLeap
      rw [e4, e100, e400]
      split_ifs with hL
      · omega
      · simp only [Bool.or_eq_true, Bool.and_eq_true, decide_eq_true_eq] at hL
        omega

/-- Decimal digit character of `n % 10`. -/
def digitChar (n : Nat) : Char := Char.ofNat (48 + n % 10)

/-- Parse a decimal digit character. -/
def digit? (c : Char) : Option Nat :=
  if 48 ≤ c.toNat ∧ c.toNat ≤ 57 then some (c.toNat - 48) else none

/-- Four-digit zero-padded decimal, the year field of
`Date.prototype.toISOString` (faithful for 0-9999). -/
def pad4 (n : Nat) : List Char :=
  [digitChar (n / 1000), digitChar (n / 100), digitChar (n / 10), digitChar n]

/-- Two-digit zero-padded decimal (`padStart(2, "0")` and the
month/day fields of `toISOString`). -/
def pad2 (n : Nat) : List Char := [digitChar (n / 10), digitChar n]

/-- The date part of `toISOString()`: `YYYY-MM-DD`. -/
def formatCivil (c : Civil) : String :=
  String.mk (pad4 c.y.toNat ++ '-' :: (pad2 c.m.toNat ++ '-' :: pad2 c.d.toNat))

/-- `toISOString().split('T')[0]` of an epoch-millisecond timestamp. -/
def isoDateOfMs (ts : Int) : String := formatCivil (civilFromDays (ts / 86400000))

/-- Epoch milliseconds of a civil date at UTC midnight. -/
def msOfCivil (c : Civil) : Int := 86400000 * daysFromCivil c

/-- Model of ECMAScript date-string parsing (`new Date(string)`),
restricted to the ISO forms `YYYY-MM-DD` (date-only, interpreted as UTC
midnight) and `YYYY-MM-DDTHH:MM:SSZ` (explicit UTC date-time).  Any
other string is an invalid date (`none`, JS `NaN`). -/
def parseDateChars (cs : List Char) : Option Int :=
  match cs with
  | [y1, y2, y3, y4, '-', m1, m2, '-', d1, d2] =>
    (match digit? y1, digit? y2, digit? y3, digit? y4,
           digit? m1, digit? m2, digit? d1, digit? d2 with
     | some a, some b, some c, some d, some e, some f, some g, some h =>
       let dt : Civil :=
         ⟨((1000 * a + 100 * b + 10 * c + d : Nat) : Int),
          ((10 * e + f : Nat) : Int), ((10 * g + h : Nat) : Int)⟩
       if validCivil dt then some (msOfCivil dt) else none
     | _, _, _, _, _, _, _, _ => none)
  | [y1, y2, y3, y4, '-', m1, m2, '-', d1, d2, 'T',
     h1, h2, ':', i1, i2, ':', s1, s2, 'Z'] =>
    (match digit? y1, digit? y2, digit? y3, digit? y4,
           digit? m1, digit? m2, digit? d1, digit? d2,
           digit? h1, digit? h2, digit? i1, digit? i2, digit? s1, digit? s2 with
     | some a, some b, some c, some d, some e, some f, some g, some h,
       some p, some q, some u, some v, some w, some x =>
       let dt : Civil :=
         ⟨((1000 * a + 100 * b + 10 * c + d : Nat) : Int),
          ((10 * e + f : Nat) : Int), ((10 * g + h : Nat) : Int)⟩
       let hh : Int := ((10 * p + q : Nat) : Int)
       let mi : Int := ((10 * u + v : Nat) : Int)
       let ss : Int := ((10 * w + x : Nat) : Int)
       if validCivil dt ∧ hh < 24 ∧ mi < 60 ∧ ss < 60 then
         some (msOfCivil dt + 3600000 * hh + 60000 * mi + 1000 * ss)
       else none
     | _, _, _, _, _, _, _, _, _, _, _, _, _, _ => none)
  | _ => none

/-- Model of `new Date(s).getTime()` on strings (see `parseDateChars`). -/
def parseDate (s : String) : Option Int := parseDateChars s.toList

theorem toList_mk (l : List Char) : (String.mk l).toList = l := rfl

theorem digit?_digitChar (n : Nat) : digit? (digitChar n) = some (n % 10) := by
  have aux : ∀ r : Nat, r < 10 → digit? (digitChar r) = some r := by decide
  have h1 : digitChar n = digitChar (n % 10) := by
    unfold digitChar
    congr 1
    omega
  rw [h1]
  exact aux (n % 10) (Nat.mod_lt _ (by norm_num))

theorem digits4 (n : Nat) (h : n ≤ 9999) :
    1000 * (n / 1000 % 10) + 100 * (n / 100 % 10) + 10 * (n / 10 % 10) + n % 10 = n := by
  omega

theorem digits2 (n : Nat) (h : n ≤ 99) : 10 * (n / 10 % 10) + n % 10 = n := by
  omega

theorem parseDate_format (c : Civil) (hy0 : 0 ≤ c.y) (hy9 : c.y ≤ 9999)
    (hm0 : 0 ≤ c.m) (hm9 : c.m ≤ 99) (hd0 : 0 ≤ c.d) (hd9 : c.d ≤ 99)
    (hv : validCivil c = true) :
    parseDate (formatCivil c) = some (msOfCivil c) := by
  obtain ⟨y, m, d⟩ := c
  simp only [parseDate, formatCivil, toList_mk, pad4, pad2,
    List.cons_append, List.nil_append]
  simp only [parseDateChars, digit?_digitChar]
  simp only at hy0 hy9 hm0 hm9 hd0 hd9
  rw [digits4 y.toNat (by omega), digits2 m.toNat (by omega), digits2 d.toNat (by omega)]
  rw [Int.toNat_of_nonneg hy0, Int.toNat_of_nonneg hm0, Int.toNat_of_nonneg hd0]
  rw [if_pos hv]

theorem monthOf_bounds (z : Int) : 1 ≤ monthOf z ∧ monthOf z ≤ 12 := by
  have hmp := mp_facts z
  unfold monthOf
  split_ifs <;> omega

theorem dayOf_bounds (z : Int) : 1 ≤ dayOf z ∧ dayOf z ≤ 31 := by
  have hdoy := doy_facts z
  have hmp := mp_facts z
  have hmpdef : mpOf z = (5 * doyOf z + 2) / 153 := rfl
  have hq : 153 * mpOf z ≤ 5 * doyOf z + 2 ∧ 5 * doyOf z + 2 ≤ 153 * mpOf z + 152 := by
    rw [hmpdef]; omega
  unfold dayOf
  omega

theorem yearOf_range (z : Int) (h0 : 0 ≤ z) (h1 : z ≤ 2932896) :
    1970 ≤ yearOf z ∧ yearOf z ≤ 9999 := by
  obtain ⟨ha0, ha1, -, -⟩ := yoe_facts z
  obtain ⟨hd0, hd1, -⟩ := doy_facts z
  have hmp := mp_facts z
  have hdoydef : doyOf z = doeOf z - startYoe (yoeOf z) := rfl
  have hmpdef : mpOf z = (5 * doyOf z + 2) / 153 := rfl
  have hdoedef : doeOf z = z + 719468 - eraOf z * 146097 := rfl
  have heradef : eraOf z = (z + 719468) / 146097 := rfl
  have hera : 4 ≤ eraOf z ∧ eraOf z ≤ 24 := by rw [heradef]; omega
  have hq : 153 * mpOf z ≤ 5 * doyOf z + 2 ∧ 5 * doyOf z + 2 ≤ 153 * mpOf z + 152 := by
    rw [hmpdef]; omega
  unfold startYoe at hdoydef
  unfold yearOf monthOf
  rcases lt_or_le (mpOf z) 10 with hc | hc
  · have hd305 : doyOf z ≤ 305 := by omega
    rw [if_pos hc, if_neg (show ¬ ((mpOf z + 3 : Int) ≤ 2) from by omega)]
    clear heradef hmpdef hq
    omega
  · have hd306 : 306 ≤ doyOf z := by omega
    rw [if_neg (show ¬ (mpOf z < 10) from by omega),
      if_pos (show (mpOf z - 9 : Int) ≤ 2 from by omega)]
    clear heradef hmpdef hq
    omega

theorem isoDate_roundTrip (ts : Int) (h0 : 0 ≤ ts) (h1 : ts < 253402300800000) :
    parseDate (isoDateOfMs ts) = some (86400000 * (ts / 86400000)) ∧
    isoDateOfMs (86400000 * (ts / 86400000)) = isoDateOfMs ts := by
  have hz0 : 0 ≤ ts / 86400000 := by omega
  have hz1 : ts / 86400000 ≤ 2932896 := by omega
  have hyr := yearOf_range (ts / 86400000) hz0 hz1
  have hmb := monthOf_bounds (ts / 86400000)
  have hdb := dayOf_bounds (ts / 86400000)
  have hcy : (civilFromDays (ts / 86400000)).y = yearOf (ts / 86400000) := rfl
  have hcm : (civilFromDays (ts / 86400000)).m = monthOf (ts / 86400000) := rfl
  have hcd : (civilFromDays (ts / 86400000)).d = dayOf (ts / 86400000) := rfl
  constructor
  · unfold isoDateOfMs
    rw [parseDate_format (civilFromDays (ts / 86400000))
      (by rw [hcy]; omega) (by rw [hcy]; omega) (by rw [hcm]; omega)
      (by rw [hcm]; omega) (by rw [hcd]; omega) (by rw [hcd]; omega)
      (validCivil_civilFromDays _)]
    unfold msOfCivil
    rw [daysFromCivil_civilFromDays]
  · unfold isoDateOfMs
    congr 2
    exact Int.mul_ediv_cancel_left _ (by norm_num)

/-- Structural helper for `natDigits`: the fuel bounds the recursion
depth so that the kernel can evaluate it; it is called with fuel `n`,
which always suffices. -/
def natDigitsAux (fuel : Nat) (n : Nat) : List Char :=
  match fuel with
  | 0 => [digitChar n]
  | fuel + 1 =>
    if n < 10 then [digitChar n]
    else natDigitsAux fuel (n / 10) ++ [digitChar (n % 10)]

/-- Decimal digits of a natural number (JS template-literal formatting
of a nonnegative integer, as in the bucket keys of `SalesDashboard`). -/
def natDigits (n : Nat) : List Char := natDigitsAux n n

/-- JS number-to-string for nonnegative integers. -/
def natToString (n : Nat) : String := String.mk (natDigits n)

/-- ISO weekday number, 1 = Monday .. 7 = Sunday
(`d.getUTCDay() || 7` in `getWeekString`). -/
def dayNumOf (z : Int) : Int := if (z + 4) % 7 = 0 then 7 else (z + 4) % 7

/-- The Thursday of the Monday-started week containing day `z`
(`d.setUTCDate(d.getUTCDate() + 4 - dayNum)` in `getWeekString`). -/
def thursdayOf (z : Int) : Int := z + 4 - dayNumOf z

/-- The week-year `getWeekString` assigns: the year of the week's
Thursday (`d.getUTCFullYear()` after the shift). -/
def weekYearOf (z : Int) : Int := yearOf (thursdayOf z)

/-- The week number `getWeekString` assigns:
`Math.ceil((((d - Date.UTC(year, 0, 1)) / 86400000) + 1) / 7)`.  The
day difference is nonnegative and exact, so the ceiling of `(k+1)/7`
is `(k + 1 + 6) / 7` in floor division. -/
def weekNumOf (z : Int) : Int :=
  (thursdayOf z - daysFromCivil ⟨weekYearOf z, 1, 1⟩ + 1 + 6) / 7

/-- Model of `getWeekString` (`SalesDashboard`, lines 246-253):
the bucket key `${year}-W${weekNo}` of a record timestamp, in a UTC
locale. -/
def getWeekString (ts : Int) : String :=
  natToString (weekYearOf (ts / 86400000)).toNat ++ "-W" ++
    natToString (weekNumOf (ts / 86400000)).toNat

/-- Model of `getMonthString` (`SalesDashboard`, lines 255-257): the
bucket key `${getFullYear()}-${String(getMonth() + 1).padStart(2, '0')}`
of a record timestamp, in a UTC locale. -/
def getMonthString (ts : Int) : String :=
  natToString (yearOf (ts / 86400000)).toNat ++ "-" ++
    String.mk (pad2 (monthOf (ts / 86400000)).toNat)

/-- Spec side, ISO-8601: weeks start Monday; the Monday of the week
containing day `z`. -/
def mondayOfWeek (z : Int) : Int := z - (z + 3) % 7

/-- Spec side, ISO-8601: the first Thursday of year `y`. -/
def firstThursday (y : Int) : Int :=
  daysFromCivil ⟨y, 1, 1⟩ +
    (4 - (daysFromCivil ⟨y, 1, 1⟩ + 4) % 7 + 7) % 7

/-- Spec side, ISO-8601: the Monday starting week 1 of year `y` — the
week containing the year's first Thursday. -/
def isoWeek1Monday (y : Int) : Int := mondayOfWeek (firstThursday y)

/-- Spec side, ISO-8601: the week-year of day `z`. -/
def isoWeekYear (z : Int) : Int :=
  if mondayOfWeek z < isoWeek1Monday (yearOf z) then yearOf z - 1
  else if isoWeek1Monday (yearOf z + 1) ≤ mondayOfWeek z then yearOf z + 1
  else yearOf z

/-- Spec side, ISO-8601: the week number of day `z` (week 1 contains
the year's first Thursday). -/
def isoWeekNum (z : Int) : Int :=
  (mondayOfWeek z - isoWeek1Monday (isoWeekYear z)) / 7 + 1

theorem thursdayOf_eq (z : Int) : thursdayOf z = mondayOfWeek z + 3 := by
  unfold thursdayOf dayNumOf mondayOfWeek
  split_ifs <;> omega

theorem thursdayOf_mod (z : Int) : thursdayOf z % 7 = 0 := by
  unfold thursdayOf dayNumOf
  split_ifs <;> omega

theorem thursdayOf_near (z : Int) : z - 3 ≤ thursdayOf z ∧ thursdayOf z ≤ z + 3 := by
  unfold thursdayOf dayNumOf
  split_ifs <;> omega

theorem jan1_step (y : Int) :
    daysFromCivil ⟨y, 1, 1⟩ + 365 ≤ daysFromCivil ⟨y + 1, 1, 1⟩ ∧
    daysFromCivil ⟨y + 1, 1, 1⟩ ≤ daysFromCivil ⟨y, 1, 1⟩ + 366 := by
  unfold daysFromCivil
  norm_num
  omega

theorem jan1_le_mono (a b : Int) (hab : a ≤ b) :
    daysFromCivil ⟨a, 1, 1⟩ ≤ daysFromCivil ⟨b, 1, 1⟩ := by
  obtain ⟨k, hk⟩ : ∃ k : Nat, b = a + k := ⟨(b - a).toNat, by omega⟩
  subst hk
  induction k with
  | zero => simp
  | succ k ih =>
    have h1 := ih (by omega)
    have h2 := (jan1_step (a + k)).1
    have h3 : a + (((k + 1) : Nat) : Int) = a + k + 1 := by push_cast; ring
    rw [h3]
    omega

theorem year_unique (t y : Int) (h1 : daysFromCivil ⟨y, 1, 1⟩ ≤ t)
    (h2 : t < daysFromCivil ⟨y + 1, 1, 1⟩) : yearOf t = y := by
  have hb := year_bounds t
  by_contra h
  rcases lt_or_gt_of_ne h with hlt | hgt
  · have hm := jan1_le_mono (yearOf t + 1) y (by omega)
    omega
  · have hm := jan1_le_mono (y + 1) (yearOf t) (by omega)
    omega

theorem firstThursday_facts (y : Int) :
    daysFromCivil ⟨y, 1, 1⟩ ≤ firstThursday y ∧
    firstThursday y ≤ daysFromCivil ⟨y, 1, 1⟩ + 6 ∧
    firstThursday y % 7 = 0 := by
  unfold firstThursday
  omega

theorem isoWeek1Monday_eq (y : Int) : isoWeek1Monday y = firstThursday y - 3 := by
  have h := firstThursday_facts y
  unfold isoWeek1Monday mondayOfWeek
  omega

theorem weekYearOf_eq_iso (z : Int) : weekYearOf z = isoWeekYear z := by
  have hm := thursdayOf_eq z
  have h7 := thursdayOf_mod z
  have hn := thursdayOf_near z
  have hybz := year_bounds z
  have hft1 := firstThursday_facts (yearOf z)
  have hft2 := firstThursday_facts (yearOf z + 1)
  have hw1 := isoWeek1Monday_eq (yearOf z)
  have hw2 := isoWeek1Monday_eq (yearOf z + 1)
  have hstep0 : daysFromCivil ⟨yearOf z - 1, 1, 1⟩ + 365 ≤ daysFromCivil ⟨yearOf z, 1, 1⟩ := by
    have h := (jan1_step (yearOf z - 1)).1
    rw [show yearOf z - 1 + 1 = yearOf z from by ring] at h
    exact h
  have hstep2 := (jan1_step (yearOf z + 1)).1
  unfold weekYearOf isoWeekYear
  split_ifs with h1 h2
  · apply year_unique
    · omega
    · rw [show yearOf z - 1 + 1 = yearOf z from by ring]
      omega
  · apply year_unique
    · omega
    · omega
  · apply year_unique
    · omega
    · omega

theorem weekNumOf_eq_iso (z : Int) : weekNumOf z = isoWeekNum z := by
  have hY := weekYearOf_eq_iso z
  have hm := thursdayOf_eq z
  have h7 := thursdayOf_mod z
  have hyb := year_bounds (thursdayOf z)
  have hft := firstThursday_facts (yearOf (thursdayOf z))
  have hw1 := isoWeek1Monday_eq (yearOf (thursdayOf z))
  unfold weekNumOf isoWeekNum
  rw [← hY]
  unfold weekYearOf
  rw [hw1]
  rw [show mondayOfWeek z = thursdayOf z - 3 from by omega]
  rw [show thursdayOf z - 3 - (firstThursday (yearOf (thursdayOf z)) - 3) =
    thursdayOf z - firstThursday (yearOf (thursdayOf z)) from by ring]
  omega

theorem weekNumOf_range (z : Int) : 1 ≤ weekNumOf z ∧ weekNumOf z ≤ 53 := by
  have h7 := thursdayOf_mod z
  have hyb := year_bounds (thursdayOf z)
  have hstep := (jan1_step (yearOf (thursdayOf z))).2
  unfold weekNumOf weekYearOf
  omega

/-- The canonical sales record (`SalesData` in `src/types.ts`).  Field
names are the source's own (the UI is Chinese-labelled):
`日期` (here `date`), `類別` (`category`), `品名` (`productName`),
`數量` (`quantity`), `銷售金額` (`amount`); Lean identifiers cannot
carry the CJK names, the column-name strings below keep them. -/
structure SalesData where
  id : String
  date : String
  category : String
  productName : String
  quantity : Int
  amount : Int
  timestamp : Int
deriving DecidableEq, Repr

/-- A raw spreadsheet cell as produced by `XLSX.utils.sheet_to_json`:
a number or a string.  Numeric cells are modelled as integers (serial
day numbers and integral quantities/amounts). -/
inductive CellValue where
  | num (n : Int)
  | str (s : String)
deriving DecidableEq, Repr

/-- A parsed spreadsheet row: column name to cell value; a missing
column name models a JS `undefined` property. -/
abbrev Row := List (String × CellValue)

/-- Property lookup (`row[key]`). -/
def getCell : Row → String → Option CellValue
  | [], _ => none
  | (k, v) :: r, key => if k = key then some v else getCell r key

/-- JS `${n}` / `String(n)` for integers. -/
def intToString (n : Int) : String :=
  if n < 0 then "-" ++ natToString (-n).toNat else natToString n.toNat

/-- JS `String(x)` over a possibly-missing cell
(`String(undefined) = "undefined"`). -/
def stringOfCell : Option CellValue → String
  | none => "undefined"
  | some (.num n) => intToString n
  | some (.str s) => s

/-- Digit-fold helper for `parseNatChars`. -/
def parseNatAux : List Char → Nat → Option Nat
  | [], acc => some acc
  | c :: cs, acc =>
    match digit? c with
    | some d => parseNatAux cs (10 * acc + d)
    | none => none

/-- All-digit string to number. -/
def parseNatChars : List Char → Option Nat
  | [] => none
  | cs => parseNatAux cs 0

/-- Model of JS `Number(string)` restricted to (optionally signed)
decimal-integer strings; all other strings are NaN (`none`).  The
importer uses it only through `Number(x) || 0`, where both NaN and the
empty string coerce to 0. -/
def jsNumber (s : String) : Option Int :=
  match s.toList with
  | '-' :: cs => (parseNatChars cs).map (fun n => -(n : Int))
  | cs => (parseNatChars cs).map (fun n => (n : Int))

/-- `Number(row[key]) || 0` (`handleFileUpload`): a numeric cell is
taken as is, a numeric string is parsed, and anything else — including
a missing cell — coerces to 0. -/
def numOr0 (v : Option CellValue) : Int :=
  match v with
  | some (.num n) => n
  | some (.str s) => (jsNumber s).getD 0
  | none => 0

/-- The per-row normalisation of `handleFileUpload`
(`SalesDashboard`, lines 340-365): a numeric date cell is a legacy
spreadsheet serial day number (epoch offset 25569 days, scaled to
milliseconds); a string date cell is parsed by `new Date`; an
unparseable or missing date leaves `timestamp` at its initial 0. -/
def formatRow (now : Int) (index : Nat) (row : Row) : SalesData :=
  let dateCell := getCell row "日期"
  let p : String × Int :=
    match dateCell with
    | some (.num n) =>
      let ts := (n - 25569) * 86400000
      (isoDateOfMs ts, ts)
    | some (.str s) =>
      match parseDate s with
      | some t => (isoDateOfMs t, t)
      | none => (s, 0)
    | none => ("undefined", 0)
  { id := "excel-" ++ intToString now ++ "-" ++ natToString index,
    date := p.1,
    category := stringOfCell (getCell row "類別"),
    productName := stringOfCell (getCell row "品名"),
    quantity := numOr0 (getCell row "數量"),
    amount := numOr0 (getCell row "銷售金額"),
    timestamp := p.2 }

/-- The required column names of an import batch. -/
def requiredKeys : List String := ["日期", "類別", "品名", "數量", "銷售金額"]

/-- Outcome of the import logic in `handleFileUpload`. -/
inductive ImportOutcome where
  | nothing
  | missingColumns (cols : List String)
  | noValidData
  | imported (recs : List SalesData)
deriving DecidableEq, Repr

/-- The batch-level import logic of `handleFileUpload`
(`SalesDashboard`, lines 330-371): an empty sheet does nothing; a first
row missing any required column rejects the whole batch with the list
of missing columns; otherwise rows are normalised and only those with
`timestamp > 0` survive; if none survives, the batch reports no valid
data.  Only the `imported` outcome reaches `onImportData`. -/
def importRows (now : Int) (data : List Row) : ImportOutcome :=
  match data with
  | [] => .nothing
  | firstRow :: _ =>
    let missingKeys := requiredKeys.filter (fun key => (getCell firstRow key).isNone)
    if 0 < missingKeys.length then .missingColumns missingKeys
    else
      let formattedData :=
        (data.enum.map (fun p => formatRow now p.1 p.2)).filter
          (fun item => decide (0 < item.timestamp))
      if formattedData ≠ [] then .imported formattedData else .noValidData

/-- Form data as submitted by `DataInput` (`onSave`'s argument:
everything but `id` and `timestamp`). -/
structure NewSalesData where
  date : String
  category : String
  productName : String
  quantity : Int
  amount : Int
deriving DecidableEq, Repr

/-- Record creation in `handleSaveData` (`src/App.tsx`, lines 53-60):
`timestamp = new Date(newData.日期).getTime()`.  An unparseable form
date would make the timestamp NaN, which the model expresses as
`none`; the date input only produces `YYYY-MM-DD` strings. -/
def mkEntry (id : String) (nd : NewSalesData) : Option SalesData :=
  (parseDate nd.date).map fun ts =>
    { id := id, date := nd.date, category := nd.category,
      productName := nd.productName, quantity := nd.quantity,
      amount := nd.amount, timestamp := ts }

/-- The observable result of one remote `loadAll` attempt: a parsed
response `{status, data}`, or a thrown transport/parse failure. -/
inductive FetchOutcome where
  | ok (status : String) (data : List SalesData)
  | fail
deriving DecidableEq, Repr

/-- `fetchData` in `src/App.tsx` (lines 25-51), remote mode: the
returned pair is the record set after the call (`setData` runs only on
`status == "success"`) and whether an error was reported
(`console.error` runs only in the catch branch).  The function is
total: no exception escapes. -/
def fetchData (outcome : FetchOutcome) (cur : List SalesData) :
    List SalesData × Bool :=
  match outcome with
  | .ok st d => if st = "success" then (d, false) else (cur, false)
  | .fail => (cur, true)

/-- View granularity (`viewMode` in `SalesDashboard`). -/
inductive ViewMode where
  | day
  | week
  | month
deriving DecidableEq, Repr

/-- The dashboard date-range filter (`DateRange` in `src/types.ts`);
the source field `end` is a Lean keyword and is named `endDate` here. -/
structure DateRange where
  start : String
  endDate : String
deriving DecidableEq, Repr

/-- One trend bucket (`trendMap[key]`): the key is stored in the
`date` field; `cats` holds the per-category amounts added in
category-stacking mode. -/
structure Bucket where
  date : String
  amount : Int
  qty : Int
  cats : List (String × Int)
deriving DecidableEq, Repr

/-- The derived view model (`processedData`'s non-null result). -/
structure ViewModel where
  filteredRaw : List SalesData
  totalSales : Int
  totalQty : Int
  topProduct : String
  trendData : List Bucket
  categoryData : List (String × Int)
deriving DecidableEq, Repr

/-- `map[k] = (map[k] || 0) + v` over a JS object modelled as an
insertion-ordered association list (new keys append at the end, as JS
property insertion order does). -/
def bumpAssoc : List (String × Int) → String → Int → List (String × Int)
  | [], k, v => [(k, v)]
  | (k', x) :: r, k, v =>
    if k' = k then (k', x + v) :: r else (k', x) :: bumpAssoc r k v

/-- The record's bucket key for a view mode (`processedData`, lines
439-445): the record's own date string for `day`, ISO-week and month
keys computed from the timestamp otherwise. -/
def trendKey (viewMode : ViewMode) (d : SalesData) : String :=
  match viewMode with
  | .day => d.date
  | .week => getWeekString d.timestamp
  | .month => getMonthString d.timestamp

/-- Accumulate one record into an existing bucket
(`trendMap[key].amount += ...`, `qty += ...`, and the per-category
bump when grouping). -/
def trendUpd (isGroup : Bool) (d : SalesData) (b : Bucket) : Bucket :=
  { b with amount := b.amount + d.amount, qty := b.qty + d.quantity,
           cats := if isGroup then bumpAssoc b.cats d.category d.amount else b.cats }

/-- Insert one record into the trend map: find the record's bucket by
key, creating it — zero-filled over all categories in grouping mode —
if absent (`if (!trendMap[key]) ...` in `processedData`). -/
def trendIns (isGroup : Bool) (allCats : List String) (key : String)
    (d : SalesData) : List Bucket → List Bucket
  | [] => [trendUpd isGroup d
      { date := key, amount := 0, qty := 0,
        cats := if isGroup then allCats.map (fun c => (c, 0)) else [] }]
  | b :: bs =>
    if b.date = key then trendUpd isGroup d b :: bs
    else b :: trendIns isGroup allCats key d bs

/-- Lexicographic comparison of character lists, the model of
`String.prototype.localeCompare` and the default `Array.sort` string
comparator over the ASCII bucket keys. -/
def charListLe : List Char → List Char → Bool
  | [], _ => true
  | _ :: _, [] => false
  | a :: as, b :: bs => if a = b then charListLe as bs else decide (a < b)

/-- String order used by the bucket sort. -/
def strLe (s t : String) : Bool := charListLe s.toList t.toList

/-- Insertion into a key-sorted bucket list. -/
def insertSorted (b : Bucket) : List Bucket → List Bucket
  | [] => [b]
  | c :: cs => if strLe b.date c.date then b :: c :: cs else c :: insertSorted b cs

/-- `Object.values(trendMap).sort((a, b) => a.date.localeCompare(b.date))`:
a sort of the buckets by key ascending (keys are unique, so stability
is irrelevant). -/
def sortBuckets : List Bucket → List Bucket
  | [] => []
  | b :: bs => insertSorted b (sortBuckets bs)

/-- Insertion into a sorted string list. -/
def insertSortedStr (s : String) : List String → List String
  | [] => [s]
  | t :: ts => if strLe s t then s :: t :: ts else t :: insertSortedStr s ts

/-- `Array.from(set).sort()`. -/
def sortStrings : List String → List String
  | [] => []
  | s :: ss => insertSortedStr s (sortStrings ss)

/-- `Set.add` in insertion order. -/
def addUnique (l : List String) (x : String) : List String :=
  if x ∈ l then l else l ++ [x]

/-- First-occurrence deduplication (a JS `Set` built by iteration). -/
def dedupStr (l : List String) : List String := l.foldl addUnique []

/-- `allCategories` (the `useMemo` in `SalesDashboard`, lines 381-392):
the sorted set of categories occurring in the full record set. -/
def allCategoriesOf (externalData : List SalesData) : List String :=
  sortStrings (dedupStr (externalData.map (fun d => d.category)))

/-- The record filter of `processedData` (lines 403-409): the
timestamp lies in `[startTs, endTs + 86400000)` and the product matches
the selection (`'all'` matches everything). -/
def recordMatch (startTs endTs : Int) (selectedProduct : String) (d : SalesData) : Bool :=
  let bufferEnd := endTs + 86400000
  (decide (startTs ≤ d.timestamp) && decide (d.timestamp < bufferEnd)) &&
  (decide (selectedProduct = "all") || decide (d.productName = selectedProduct))

/-- The aggregation pipeline `processedData` (`SalesDashboard`, lines
394-479).  `none` models the source's `null` returns: an empty record
set, a blank date-range field, or an unparseable range date.  With a
nonempty record set and valid range, an empty filtered set yields the
zeroed view model with the `'-'` top-product sentinel; otherwise
totals, top product, sorted trend buckets and the category breakdown
are computed exactly as in the source.  The function is total — no
exception can escape. -/
def processedData (externalData : List SalesData) (dateRange : DateRange)
    (viewMode : ViewMode) (selectedProduct : String) (isGroupByCategory : Bool) :
    Option ViewModel :=
  if externalData = [] then none
  else if dateRange.start = "" ∨ dateRange.endDate = "" then none
  else
    match parseDate dateRange.start, parseDate dateRange.endDate with
    | some startTs, some endTs =>
      let filtered := externalData.filter (recordMatch startTs endTs selectedProduct)
      if filtered = [] then
        some { filteredRaw := [], totalSales := 0, totalQty := 0,
               topProduct := "-", trendData := [], categoryData := [] }
      else
        let allCategories := allCategoriesOf externalData
        let totalSales := filtered.foldl (fun acc curr => acc + curr.amount) 0
        let totalQty := filtered.foldl (fun acc curr => acc + curr.quantity) 0
        let productSales := filtered.foldl (fun m d => bumpAssoc m d.productName d.amount) []
        let topProduct :=
          (productSales.foldl (fun p nv => if nv.2 > p.2 then nv else p) ("-", 0)).1
        let trendMap := filtered.foldl
          (fun m d => trendIns isGroupByCategory allCategories (trendKey viewMode d) d m) []
        let trendData := sortBuckets trendMap
        let categoryData := filtered.foldl (fun m d => bumpAssoc m d.category d.amount) []
        some { filteredRaw := filtered, totalSales := totalSales, totalQty := totalQty,
               topProduct := topProduct, trendData := trendData,
               categoryData := categoryData }
    | _, _ => none

theorem parseDate_empty : parseDate "" = none := rfl

theorem foldl_add_eq (f : SalesData → Int) (l : List SalesData) (init : Int) :
    l.foldl (fun acc c => acc + f c) init = init + (l.map f).sum := by
  induction l generalizing init with
  | nil => simp
  | cons x xs ih =>
    simp only [List.foldl_cons, List.map_cons, List.sum_cons, ih]
    ring

/-- Every record surviving `importRows` has a positive timestamp and
its date field is the ISO rendering of that timestamp. -/
theorem importRows_surviving (now : Int) (data : List Row) (recs : List SalesData)
    (h : importRows now data = .imported recs) :
    ∀ r ∈ recs, 0 < r.timestamp ∧ r.date = isoDateOfMs r.timestamp := by
  intro r hr
  rcases data with _ | ⟨firstRow, rest⟩
  · simp [importRows] at h
  · unfold importRows at h
    simp only at h
    split_ifs at h with h1 h2
    first
    | subst h
    | (injection h with h; subst h)
    obtain ⟨hmem, hpos⟩ := List.mem_filter.mp hr
    obtain ⟨p, hp, hpr⟩ := List.mem_map.mp hmem
    have hpos2 : 0 < r.timestamp := of_decide_eq_true hpos
    refine ⟨hpos2, ?_⟩
    have hpr2 := hpr
    unfold formatRow at hpr2
    rcases hcell : getCell p.2 "日期" with _ | v
    · rw [hcell] at hpr2
      simp only [] at hpr2
      rw [← hpr2] at hpos2
      simp at hpos2
    · rcases v with n | s
      · rw [hcell] at hpr2
        simp only [] at hpr2
        rw [← hpr2]
      · rw [hcell] at hpr2
        simp only [] at hpr2
        rcases hps : parseDate s with _ | t
        · rw [hps] at hpr2
          simp only [] at hpr2
          rw [← hpr2] at hpos2
          simp at hpos2
        · rw [hps] at hpr2
          simp only [] at hpr2
          rw [← hpr2]

/-- C8 counterexample: a `loadAll` response with a non-`"success"`
status leaves the record set as it was (empty on initial load) and
reports no error — the claim's "plus a reported error" fails (the
second component, the error report, is `false`). -/
theorem C8_counterexample :
    fetchData (FetchOutcome.ok "error"
      [{ id := "id1", date := "2024-01-15", category := "A", productName := "X",
         quantity := 1, amount := 100, timestamp := 1705276800000 }]) [] =
      ([], false) := by decide

/-- C8 (amended): only a response with status `"success"` is treated
as a valid payload and replaces the record set; any other status
leaves the record set unchanged with no reported error; a transport or
parse failure leaves it unchanged with a reported (console) error; in
every case `fetchData` returns normally — no exception aborts the
caller. -/
theorem C8_fetch_status (st : String) (payload cur : List SalesData) :
    fetchData (FetchOutcome.ok "success" payload) cur = (payload, false) ∧
    (st ≠ "success" → fetchData (FetchOutcome.ok st payload) cur = (cur, false)) ∧
    fetchData FetchOutcome.fail cur = (cur, true) := by
  refine ⟨by simp [fetchData], ?_, rfl⟩
  intro h
  simp [fetchData, h]

/-- C8 witness: the amended theorem applied at status `"error"`. -/
theorem C8_witness :
    fetchData (FetchOutcome.ok "error" []) [] = ([], false) :=
  (C8_fetch_status "error" [] []).2.1 (by decide)

/-- C2 counterexample: aggregating an empty record set returns `none`
(the source's `null`), not a view model with zeroed totals as the
claim states. -/
theorem C2_counterexample :
    processedData [] { start := "2024-01-01", endDate := "2024-01-31" }
      ViewMode.day "all" false = none := rfl

/-- C2 (amended): for a nonempty record set with a well-formed date
range whose filtered subset is empty, the aggregation returns the
zeroed view model — zero totals, empty trend series, empty category
breakdown and the `"-"` top-product sentinel — and, being a total
function, never throws; an empty record set (or a blank or unparseable
range) instead yields `none`, no view model at all. -/
theorem C2_empty_filtered (externalData : List SalesData) (dateRange : DateRange)
    (viewMode : ViewMode) (selectedProduct : String) (isGroupByCategory : Bool)
    (s e : Int) (hne : externalData ≠ [])
    (hs : parseDate dateRange.start = some s)
    (he : parseDate dateRange.endDate = some e)
    (hempty : externalData.filter (recordMatch s e selectedProduct) = []) :
    processedData externalData dateRange viewMode selectedProduct isGroupByCategory =
      some { filteredRaw := [], totalSales := 0, totalQty := 0,
             topProduct := "-", trendData := [], categoryData := [] } := by
  have hstart : ¬ (dateRange.start = "" ∨ dateRange.endDate = "") := by
    rintro (h | h)
    · rw [h, parseDate_empty] at hs; cases hs
    · rw [h, parseDate_empty] at he; cases he
  unfold processedData
  rw [if_neg hne, if_neg hstart, hs, he]
  simp only []
  rw [hempty]
  simp

/-- C2 witness: the amended theorem applied to a one-record set whose
record lies outside the date range. -/
theorem C2_witness :
    processedData
      [{ id := "id1", date := "2024-05-01", category := "A", productName := "X",
         quantity := 1, amount := 100, timestamp := 1714521600000 }]
      { start := "2024-01-01", endDate := "2024-01-31" } ViewMode.day "all" false =
      some { filteredRaw := [], totalSales := 0, totalQty := 0,
             topProduct := "-", trendData := [], categoryData := [] } :=
  C2_empty_filtered _ _ ViewMode.day "all" false 1704067200000 1706659200000
    (by decide) (by decide) (by decide) (by decide)

/-- C5: an import batch (nonempty, as a spreadsheet with rows) in
which a required column is missing from every row — in particular from
the first row, which the code inspects — is rejected whole: the
outcome is `missingColumns` naming that column (and only required
columns), and no `imported` outcome, hence no appended records, can
result. -/
theorem C5_missing_column (now : Int) (data : List Row) (k : String)
    (hne : data ≠ []) (hk : k ∈ requiredKeys)
    (hmiss : ∀ row ∈ data, getCell row k = none) :
    ∃ ms, importRows now data = ImportOutcome.missingColumns ms ∧ k ∈ ms ∧
      (∀ k2 ∈ ms, k2 ∈ requiredKeys) ∧
      ∀ recs, importRows now data ≠ ImportOutcome.imported recs := by
  rcases data with _ | ⟨firstRow, rest⟩
  · exact absurd rfl hne
  · have hkmem : k ∈ requiredKeys.filter (fun key => (getCell firstRow key).isNone) := by
      rw [List.mem_filter]
      refine ⟨hk, ?_⟩
      rw [hmiss firstRow (List.mem_cons_self _ _)]
      rfl
    have hlen : 0 < (requiredKeys.filter (fun key => (getCell firstRow key).isNone)).length :=
      List.length_pos.mpr (List.ne_nil_of_mem hkmem)
    refine ⟨_, ?_, hkmem, fun k2 hk2 => (List.mem_filter.mp hk2).1, ?_⟩
    · unfold importRows
      simp only []
      rw [if_pos hlen]
    · intro recs hcon
      unfold importRows at hcon
      simp only [] at hcon
      rw [if_pos hlen] at hcon
      cases hcon

/-- C5 witness: the theorem applied to a one-row batch missing the
`數量` (quantity) column. -/
theorem C5_witness :
    ∃ ms, importRows 0 [[("日期", CellValue.str "2024-01-15"),
        ("類別", CellValue.str "A"), ("品名", CellValue.str "X"),
        ("銷售金額", CellValue.num 100)]] = ImportOutcome.missingColumns ms ∧
      "數量" ∈ ms ∧ (∀ k2 ∈ ms, k2 ∈ requiredKeys) ∧
      ∀ recs, importRows 0 [[("日期", CellValue.str "2024-01-15"),
        ("類別", CellValue.str "A"), ("品名", CellValue.str "X"),
        ("銷售金額", CellValue.num 100)]] ≠ ImportOutcome.imported recs :=
  C5_missing_column 0 _ "數量" (by decide) (by decide) (by decide)

/-- C10: the import keeps only rows whose derived timestamp is
strictly positive, so every surviving record has `timestamp > 0`; a
row whose date parses to epoch milliseconds ≤ 0 — including the valid
calendar date 1970-01-01, which parses to exactly 0 — is dropped, and
a batch of only such rows imports nothing. -/
theorem C10_nonpositive_dropped :
    (∀ (now : Int) (data : List Row) (recs : List SalesData),
      importRows now data = ImportOutcome.imported recs →
      ∀ r ∈ recs, 0 < r.timestamp) ∧
    parseDate "1970-01-01" = some 0 ∧
    importRows 0 [[("日期", CellValue.str "1970-01-01"), ("類別", CellValue.str "A"),
      ("品名", CellValue.str "X"), ("數量", CellValue.num 1),
      ("銷售金額", CellValue.num 1)]] = ImportOutcome.noValidData := by
  refine ⟨?_, by decide, by decide⟩
  intro now data recs h r hr
  exact (importRows_surviving now data recs h r hr).1

/-- C10 witness: the theorem's universal part applied to a concrete
surviving record. -/
theorem C10_witness :
    (0 : Int) <
      (SalesData.mk "excel-7-0" "2024-01-15" "A" "X" 2 100 1705276800000).timestamp :=
  C10_nonpositive_dropped.1 7
    [[("日期", CellValue.str "2024-01-15"), ("類別", CellValue.str "A"),
      ("品名", CellValue.str "X"), ("數量", CellValue.num 2),
      ("銷售金額", CellValue.num 100)]]
    [SalesData.mk "excel-7-0" "2024-01-15" "A" "X" 2 100 1705276800000]
    (by decide) _ (by decide)
/-- A list on which every element satisfies the filter predicate is
left unchanged by the filter. -/
theorem filter_all_eq_self (l : List SalesData) (p : SalesData → Bool)
    (h : ∀ a ∈ l, p a = true) : l.filter p = l := by
  induction l with
  | nil => rfl
  | cons x xs ih =>
    simp only [List.filter_cons, h x (List.mem_cons_self _ _)]
    rw [ih (fun a ha => h a (List.mem_cons_of_mem _ ha))]
    simp

/-- C6: a non-numeric (or missing) quantity or amount cell coerces to
0 and the row is kept, while a row whose date is unparseable is
dropped: importing a row with valid date `2024-01-15` and non-numeric
quantity together with a row dated `not-a-date` yields exactly one
surviving normalized record, with quantity 0. -/
theorem C6_row_coercion :
    (∀ s, jsNumber s = none → numOr0 (some (CellValue.str s)) = 0) ∧
    numOr0 none = 0 ∧
    jsNumber "n/a" = none ∧
    importRows 0
      [[("日期", CellValue.str "2024-01-15"), ("類別", CellValue.str "A"),
        ("品名", CellValue.str "X"), ("數量", CellValue.str "n/a"),
        ("銷售金額", CellValue.num 100)],
       [("日期", CellValue.str "not-a-date"), ("類別", CellValue.str "B"),
        ("品名", CellValue.str "Y"), ("數量", CellValue.num 1),
        ("銷售金額", CellValue.num 50)]] =
      ImportOutcome.imported
        [{ id := "excel-0-0", date := "2024-01-15", category := "A",
           productName := "X", quantity := 0, amount := 100,
           timestamp := 1705276800000 }] := by
  refine ⟨?_, rfl, by decide, by decide⟩
  intro s h
  simp [numOr0, h]

/-- C6 witness: the coercion clause applied to the non-numeric string
`n/a`. -/
theorem C6_witness : numOr0 (some (CellValue.str "n/a")) = 0 :=
  C6_row_coercion.1 "n/a" (by decide)

/-- C9 counterexample: an imported row whose date cell is the
datetime string `2024-01-15T10:30:00Z` survives with timestamp
1705314600000 (10:30 UTC) but date `2024-01-15`, whose epoch-millisecond
value is 1705276800000 (midnight) — the claimed invariant
`timestamp == epochMillis(date)` fails for this record. -/
theorem C9_counterexample :
    importRows 0
      [[("日期", CellValue.str "2024-01-15T10:30:00Z"), ("類別", CellValue.str "A"),
        ("品名", CellValue.str "X"), ("數量", CellValue.num 2),
        ("銷售金額", CellValue.num 100)]] =
      ImportOutcome.imported
        [{ id := "excel-0-0", date := "2024-01-15", category := "A",
           productName := "X", quantity := 2, amount := 100,
           timestamp := 1705314600000 }] ∧
    parseDate "2024-01-15" = some 1705276800000 ∧
    (1705314600000 : Int) ≠ 1705276800000 := by
  refine ⟨by decide, by decide, by decide⟩

/-- C9 (amended): a record created by form submission satisfies the
invariant exactly — its timestamp is the parsed epoch-millisecond value
of its date string; a record surviving import satisfies it only up to
the day: its date field is the ISO rendering of the calendar day
containing its timestamp, and parsing that date yields the timestamp
truncated to midnight (equal to the timestamp itself only when the
source date carried no time-of-day component). -/
theorem C9_timestamp_invariant :
    (∀ (id : String) (nd : NewSalesData) (r : SalesData),
      mkEntry id nd = some r → parseDate r.date = some r.timestamp) ∧
    (∀ (now : Int) (data : List Row) (recs : List SalesData),
      importRows now data = ImportOutcome.imported recs →
      ∀ r ∈ recs, r.date = isoDateOfMs r.timestamp ∧
        (r.timestamp < 253402300800000 →
          parseDate r.date = some (86400000 * (r.timestamp / 86400000)))) := by
  constructor
  · intro id nd r h
    unfold mkEntry at h
    rcases hp : parseDate nd.date with _ | ts
    · rw [hp] at h; cases h
    · rw [hp] at h
      simp only [Option.map_some'] at h
      injection h with h
      subst h
      exact hp
  · intro now data recs h r hr
    obtain ⟨hpos, hdate⟩ := importRows_surviving now data recs h r hr
    refine ⟨hdate, fun hb => ?_⟩
    rw [hdate]
    exact (isoDate_roundTrip r.timestamp (le_of_lt hpos) hb).1

/-- C9 witness: the form-submission clause applied to a concrete
entry. -/
theorem C9_witness :
    parseDate (SalesData.mk "form-1" "2024-01-15" "A" "X" 1 50 1705276800000).date =
      some (SalesData.mk "form-1" "2024-01-15" "A" "X" 1 50 1705276800000).timestamp :=
  C9_timestamp_invariant.1 "form-1" (NewSalesData.mk "2024-01-15" "A" "X" 1 50)
    _ (by decide)

/-- C7: every record surviving the import — whether its source date
cell was a spreadsheet serial day number or a parseable date string —
carries the `YYYY-MM-DD` ISO rendering of its timestamp as its date
field, and re-normalising round-trips: the date parses, and
re-rendering the parsed value yields the same string (stated for
timestamps before the year 10000, where the four-digit year rendering
is faithful). -/
theorem C7_date_roundtrip (now : Int) (data : List Row) (recs : List SalesData)
    (h : importRows now data = ImportOutcome.imported recs) :
    ∀ r ∈ recs, r.timestamp < 253402300800000 →
      r.date = isoDateOfMs r.timestamp ∧
      ∃ t, parseDate r.date = some t ∧ isoDateOfMs t = r.date := by
  intro r hr hb
  obtain ⟨hpos, hdate⟩ := importRows_surviving now data recs h r hr
  have hrt := isoDate_roundTrip r.timestamp (le_of_lt hpos) hb
  refine ⟨hdate, 86400000 * (r.timestamp / 86400000), ?_, ?_⟩
  · rw [hdate]; exact hrt.1
  · rw [hdate, hrt.2]

/-- C7 witness: the theorem applied to a batch whose date cell is the
serial day number 45307 (2024-01-16). -/
theorem C7_witness :
    (SalesData.mk "excel-3-0" "2024-01-16" "A" "X" 2 100 1705363200000).date =
      isoDateOfMs (SalesData.mk "excel-3-0" "2024-01-16" "A" "X" 2 100
        1705363200000).timestamp ∧
    ∃ t, parseDate (SalesData.mk "excel-3-0" "2024-01-16" "A" "X" 2 100
        1705363200000).date = some t ∧
      isoDateOfMs t = (SalesData.mk "excel-3-0" "2024-01-16" "A" "X" 2 100
        1705363200000).date :=
  C7_date_roundtrip 3
    [[("日期", CellValue.num 45307), ("類別", CellValue.str "A"),
      ("品名", CellValue.str "X"), ("數量", CellValue.num 2),
      ("銷售金額", CellValue.num 100)]]
    [SalesData.mk "excel-3-0" "2024-01-16" "A" "X" 2 100 1705363200000]
    (by decide) _ (by decide) (by decide)

/-- C1: with product selection `all` and a date range containing every
record's timestamp (inclusive of the end date's whole calendar day),
the aggregation keeps every record, its totalSales is exactly the sum
of the amount field over all records, and its totalQty the sum of the
quantity field over the (identical) filtered set. -/
theorem C1_aggregate_full_range (externalData : List SalesData) (dateRange : DateRange)
    (viewMode : ViewMode) (isGroupByCategory : Bool) (s e : Int)
    (hne : externalData ≠ [])
    (hs : parseDate dateRange.start = some s)
    (he : parseDate dateRange.endDate = some e)
    (hrange : ∀ r ∈ externalData, s ≤ r.timestamp ∧ r.timestamp < e + 86400000) :
    ∃ vm, processedData externalData dateRange viewMode "all" isGroupByCategory =
        some vm ∧
      vm.filteredRaw = externalData ∧
      vm.totalSales = (externalData.map (fun r => r.amount)).sum ∧
      vm.totalQty = (externalData.map (fun r => r.quantity)).sum := by
  have hstart : ¬ (dateRange.start = "" ∨ dateRange.endDate = "") := by
    rintro (h | h)
    · rw [h, parseDate_empty] at hs; cases hs
    · rw [h, parseDate_empty] at he; cases he
  have hmatch : ∀ a ∈ externalData, recordMatch s e "all" a = true := by
    intro a ha
    obtain ⟨h1, h2⟩ := hrange a ha
    unfold recordMatch
    simp only []
    rw [decide_eq_true h1, decide_eq_true h2]
    simp
  have hfil : externalData.filter (recordMatch s e "all") = externalData :=
    filter_all_eq_self externalData _ hmatch
  unfold processedData
  rw [if_neg hne, if_neg hstart, hs, he]
  simp only []
  rw [hfil, if_neg hne]
  refine ⟨_, rfl, rfl, ?_, ?_⟩
  · exact (foldl_add_eq (fun r => r.amount) externalData 0).trans (zero_add _)
  · exact (foldl_add_eq (fun r => r.quantity) externalData 0).trans (zero_add _)

/-- C1 witness: the theorem applied to a two-record set fully covered
by the range 2024-01-10 to 2024-01-20. -/
theorem C1_witness :
    ∃ vm, processedData
        [SalesData.mk "a" "2024-01-10" "A" "X" 1 100 1704844800000,
         SalesData.mk "b" "2024-01-20" "B" "Y" 2 50 1705708800000]
        (DateRange.mk "2024-01-10" "2024-01-20") ViewMode.day "all" false =
        some vm ∧
      vm.filteredRaw =
        [SalesData.mk "a" "2024-01-10" "A" "X" 1 100 1704844800000,
         SalesData.mk "b" "2024-01-20" "B" "Y" 2 50 1705708800000] ∧
      vm.totalSales =
        (([SalesData.mk "a" "2024-01-10" "A" "X" 1 100 1704844800000,
           SalesData.mk "b" "2024-01-20" "B" "Y" 2 50 1705708800000]).map
          (fun r => r.amount)).sum ∧
      vm.totalQty =
        (([SalesData.mk "a" "2024-01-10" "A" "X" 1 100 1704844800000,
           SalesData.mk "b" "2024-01-20" "B" "Y" 2 50 1705708800000]).map
          (fun r => r.quantity)).sum :=
  C1_aggregate_full_range _ _ ViewMode.day false 1704844800000 1705708800000
    (by decide) (by decide) (by decide) (by decide)
/-- C3 counterexample: the bucket key `getWeekString` computes for
2024-01-01 (a Monday, ISO week 1 of 2024) is `2024-W1` — the week
number is not zero-padded, so the key differs from the claimed
`2024-W01`. -/
theorem C3_counterexample :
    getWeekString 1704067200000 = "2024-W1" ∧
    trendKey ViewMode.week
      (SalesData.mk "a" "2024-01-01" "A" "X" 1 100 1704067200000) = "2024-W1" ∧
    isoWeekYear (1704067200000 / 86400000) = 2024 ∧
    isoWeekNum (1704067200000 / 86400000) = 1 ∧
    "2024-W1" ≠ "2024-W01" := by
  refine ⟨by decide, by decide, by decide, by decide, by decide⟩

/-- C3 (amended): in week view mode every record's bucket key is
`${year}-W${weekNo}` where year and week number agree exactly with the
ISO-8601 definition (weeks start Monday; the week containing the
year's first Thursday is week 1) and the week number lies in 1..53 —
but the week number is rendered without zero padding. -/
theorem C3_week_key (ts : Int) :
    getWeekString ts =
      natToString (isoWeekYear (ts / 86400000)).toNat ++ "-W" ++
        natToString (isoWeekNum (ts / 86400000)).toNat ∧
    1 ≤ isoWeekNum (ts / 86400000) ∧ isoWeekNum (ts / 86400000) ≤ 53 := by
  have h1 := weekYearOf_eq_iso (ts / 86400000)
  have h2 := weekNumOf_eq_iso (ts / 86400000)
  have h3 := weekNumOf_range (ts / 86400000)
  unfold getWeekString
  rw [h1, h2]
  exact ⟨rfl, by omega, by omega⟩

theorem charListLe_total : ∀ a b : List Char,
    charListLe a b = true ∨ charListLe b a = true := by
  intro a
  induction a with
  | nil => intro b; left; rfl
  | cons x xs ih =>
    intro b
    cases b with
    | nil => right; rfl
    | cons y ys =>
      by_cases hxy : x = y
      · subst hxy
        simp only [charListLe, if_pos rfl]
        exact ih ys
      · rcases lt_or_gt_of_ne hxy with h | h
        · left
          simp only [charListLe, if_neg hxy]
          exact decide_eq_true h
        · right
          simp only [charListLe, if_neg (Ne.symm hxy)]
          exact decide_eq_true h

theorem charListLe_trans : ∀ a b c : List Char,
    charListLe a b = true → charListLe b c = true → charListLe a c = true := by
  intro a
  induction a with
  | nil => intro b c _ _; rfl
  | cons x xs ih =>
    intro b c hab hbc
    cases b with
    | nil => simp [charListLe] at hab
    | cons y ys =>
      cases c with
      | nil => simp [charListLe] at hbc
      | cons z zs =>
        by_cases hxy : x = y <;> by_cases hyz : y = z
        · subst hxy; subst hyz
          simp only [charListLe, if_pos rfl] at hab hbc ⊢
          exact ih ys zs hab hbc
        · subst hxy
          simp only [charListLe, if_pos rfl, if_neg hyz] at hab hbc ⊢
          exact hbc
        · subst hyz
          simp only [charListLe, if_neg hxy] at hab ⊢
          exact hab
        · simp only [charListLe, if_neg hxy, if_neg hyz] at hab hbc
          have h1 : x < y := of_decide_eq_true hab
          have h2 : y < z := of_decide_eq_true hbc
          have hxz : x ≠ z := ne_of_lt (lt_trans h1 h2)
          simp only [charListLe, if_neg hxz]
          exact decide_eq_true (lt_trans h1 h2)

theorem strLe_total (s t : String) : strLe s t = true ∨ strLe t s = true :=
  charListLe_total s.toList t.toList

theorem strLe_trans (s t u : String) (h1 : strLe s t = true)
    (h2 : strLe t u = true) : strLe s u = true :=
  charListLe_trans s.toList t.toList u.toList h1 h2

theorem mem_insertSorted (b x : Bucket) :
    ∀ l : List Bucket, x ∈ insertSorted b l → x = b ∨ x ∈ l := by
  intro l
  induction l with
  | nil =>
    intro h
    simp [insertSorted] at h
    exact Or.inl h
  | cons c cs ih =>
    intro h
    simp only [insertSorted] at h
    split_ifs at h with hle
    · rcases List.mem_cons.mp h with h1 | h1
      · exact Or.inl h1
      · exact Or.inr h1
    · rcases List.mem_cons.mp h with h1 | h1
      · exact Or.inr (List.mem_cons.mpr (Or.inl h1))
      · rcases ih h1 with h2 | h2
        · exact Or.inl h2
        · exact Or.inr (List.mem_cons.mpr (Or.inr h2))

theorem insertSorted_sorted (b : Bucket) :
    ∀ l : List Bucket, l.Pairwise (fun u v => strLe u.date v.date = true) →
      (insertSorted b l).Pairwise (fun u v => strLe u.date v.date = true) := by
  intro l
  induction l with
  | nil =>
    intro _
    simp [insertSorted]
  | cons c cs ih =>
    intro h
    rcases List.pairwise_cons.mp h with ⟨hc, hcs⟩
    simp only [insertSorted]
    split_ifs with hle
    · refine List.pairwise_cons.mpr ⟨?_, h⟩
      intro y hy
      rcases List.mem_cons.mp hy with h1 | h1
      · subst h1; exact hle
      · exact strLe_trans _ _ _ hle (hc y h1)
    · refine List.pairwise_cons.mpr ⟨?_, ih hcs⟩
      intro y hy
      rcases mem_insertSorted b y cs hy with h1 | h1
      · rw [h1]
        rcases (strLe_total (Bucket.date b) (Bucket.date c)) with h2 | h2
        · exact absurd h2 hle
        · exact h2
      · exact hc y h1

theorem sortBuckets_sorted : ∀ l : List Bucket,
    (sortBuckets l).Pairwise (fun u v => strLe u.date v.date = true) := by
  intro l
  induction l with
  | nil => simp [sortBuckets]
  | cons b bs ih => exact insertSorted_sorted b (sortBuckets bs) ih

/-- Every view model `processedData` produces has its trend buckets in
ascending `strLe` order of their keys. -/
theorem processedData_trend_sorted (externalData : List SalesData)
    (dateRange : DateRange) (viewMode : ViewMode) (selectedProduct : String)
    (isGroupByCategory : Bool) (vm : ViewModel)
    (h : processedData externalData dateRange viewMode selectedProduct
      isGroupByCategory = some vm) :
    vm.trendData.Pairwise (fun u v => strLe u.date v.date = true) := by
  unfold processedData at h
  split_ifs at h with h1 h2
  rcases hps : parseDate dateRange.start with _ | s <;>
    rcases hpe : parseDate dateRange.endDate with _ | e <;>
    rw [hps, hpe] at h <;> simp only [] at h
  · cases h
  · cases h
  · cases h
  · split_ifs at h with h3
    · injection h with h
      subst h
      simp
    · injection h with h
      subst h
      exact sortBuckets_sorted _
theorem digitChar_mod (a : Nat) : digitChar a = digitChar (a % 10) := by
  unfold digitChar
  congr 1
  omega

theorem digitChar_inj (a b : Nat) :
    (digitChar a = digitChar b) ↔ a % 10 = b % 10 := by
  have aux : ∀ x : Nat, x < 10 → ∀ y : Nat, y < 10 →
      ((digitChar x = digitChar y) ↔ x = y) := by decide
  rw [digitChar_mod a, digitChar_mod b]
  exact aux (a % 10) (Nat.mod_lt _ (by norm_num)) (b % 10) (Nat.mod_lt _ (by norm_num))

theorem digitChar_lt (a b : Nat) :
    (digitChar a < digitChar b) ↔ a % 10 < b % 10 := by
  have aux : ∀ x : Nat, x < 10 → ∀ y : Nat, y < 10 →
      ((digitChar x < digitChar y) ↔ x < y) := by decide
  rw [digitChar_mod a, digitChar_mod b]
  exact aux (a % 10) (Nat.mod_lt _ (by norm_num)) (b % 10) (Nat.mod_lt _ (by norm_num))

theorem pad4_inj (a b : Nat) (ha : a ≤ 9999) (hb : b ≤ 9999) :
    pad4 a = pad4 b ↔ a = b := by
  simp only [pad4, List.cons.injEq, and_true, digitChar_inj]
  omega

theorem pad2_inj (a b : Nat) (ha : a ≤ 99) (hb : b ≤ 99) :
    pad2 a = pad2 b ↔ a = b := by
  simp only [pad2, List.cons.injEq, and_true, digitChar_inj]
  omega

theorem charListLe_pad4_iff (a b : Nat) (ha : a ≤ 9999) (hb : b ≤ 9999) :
    charListLe (pad4 a) (pad4 b) = true ↔ a ≤ b := by
  simp only [pad4, charListLe]
  split_ifs with h1 h2 h3 h4 <;>
    simp only [decide_eq_true_eq, eq_self_iff_true, true_iff] <;>
    simp only [digitChar_inj, digitChar_lt] at * <;>
    omega

theorem charListLe_pad2_iff (a b : Nat) (ha : a ≤ 99) (hb : b ≤ 99) :
    charListLe (pad2 a) (pad2 b) = true ↔ a ≤ b := by
  simp only [pad2, charListLe]
  split_ifs with h1 h2 <;>
    simp only [decide_eq_true_eq, eq_self_iff_true, true_iff] <;>
    simp only [digitChar_inj, digitChar_lt] at * <;>
    omega

theorem charListLe_cons_same (c : Char) (r s : List Char) :
    charListLe (c :: r) (c :: s) = charListLe r s := by
  simp [charListLe]

theorem charListLe_append_same_length (a : List Char) :
    ∀ b r s : List Char, a.length = b.length →
      charListLe (a ++ r) (b ++ s) =
        if a = b then charListLe r s else charListLe a b := by
  induction a with
  | nil =>
    intro b r s hlen
    cases b with
    | nil => simp
    | cons y ys => simp at hlen
  | cons x xs ih =>
    intro b r s hlen
    cases b with
    | nil => simp at hlen
    | cons y ys =>
      have hlen2 : xs.length = ys.length := by
        simp only [List.length_cons] at hlen; omega
      by_cases hxy : x = y
      · subst hxy
        simp only [List.cons_append, charListLe_cons_same]
        rw [ih ys r s hlen2]
        by_cases hxs : xs = ys
        · subst hxs; simp
        · rw [if_neg hxs, if_neg (by simp [hxs] : ¬ x :: xs = x :: ys)]
      · simp [List.cons_append, charListLe, List.cons.injEq, hxy]

theorem natDigitsAux_succ (f n : Nat) :
    natDigitsAux (f + 1) n =
      if n < 10 then [digitChar n]
      else natDigitsAux f (n / 10) ++ [digitChar (n % 10)] := rfl

theorem natDigitsAux_base (f m : Nat) (h : m < 10) :
    natDigitsAux f m = [digitChar m] := by
  cases f with
  | zero => rfl
  | succ f => rw [natDigitsAux_succ, if_pos h]

theorem natDigitsAux_four (f n : Nat) (h1 : 1000 ≤ n) (h2 : n ≤ 9999) :
    natDigitsAux (f + 3) n = pad4 n := by
  rw [show f + 3 = f + 2 + 1 from rfl, natDigitsAux_succ, if_neg (by omega : ¬ n < 10)]
  rw [show f + 2 = f + 1 + 1 from rfl, natDigitsAux_succ,
    if_neg (by omega : ¬ n / 10 < 10)]
  rw [natDigitsAux_succ, if_neg (by omega : ¬ n / 10 / 10 < 10)]
  rw [natDigitsAux_base f (n / 10 / 10 / 10) (by omega : n / 10 / 10 / 10 < 10)]
  simp only [pad4, List.cons_append, List.nil_append]
  rw [show n / 10 / 10 / 10 = n / 1000 from by omega,
    show n / 10 / 10 = n / 100 from by omega]
  rw [← digitChar_mod (n / 100), ← digitChar_mod (n / 10), ← digitChar_mod n]

theorem natDigits_four (n : Nat) (h1 : 1000 ≤ n) (h2 : n ≤ 9999) :
    natDigits n = pad4 n := by
  have h := natDigitsAux_four (n - 3) n h1 h2
  rw [show n - 3 + 3 = n from by omega] at h
  exact h
theorem valid_bounds (y m d : Int) (hv : validCivil ⟨y, m, d⟩ = true) :
    1 ≤ m ∧ m ≤ 12 ∧ 1 ≤ d ∧ d ≤ 31 ∧
    (m = 2 → d ≤ 29) ∧
    (m = 2 → d = 29 → (y % 4 = 0 ∧ ¬ y % 100 = 0) ∨ y % 400 = 0) ∧
    ((m = 4 ∨ m = 6 ∨ m = 9 ∨ m = 11) → d ≤ 30) := by
  simp only [validCivil, daysInMonth, Bool.and_eq_true, decide_eq_true_eq] at hv
  obtain ⟨⟨⟨h1, h2⟩, h3⟩, h4⟩ := hv
  split_ifs at h4 with hm2 hleap hm46 <;>
    simp only [isLeap, Bool.or_eq_true, Bool.and_eq_true, decide_eq_true_eq,
      bne_iff_ne, ne_eq] at * <;>
    omega

theorem days_jan1_le (y m d : Int) (hv : validCivil ⟨y, m, d⟩ = true) :
    daysFromCivil ⟨y, 1, 1⟩ ≤ daysFromCivil ⟨y, m, d⟩ := by
  have hb := valid_bounds y m d hv
  unfold daysFromCivil
  simp only []
  split_ifs <;> omega

theorem days_lt_jan1_next (y m d : Int) (hv : validCivil ⟨y, m, d⟩ = true) :
    daysFromCivil ⟨y, m, d⟩ < daysFromCivil ⟨y + 1, 1, 1⟩ := by
  have hb := valid_bounds y m d hv
  unfold daysFromCivil
  simp only []
  split_ifs <;> omega

set_option maxHeartbeats 2000000 in
theorem days_sameYear_lt (y m1 d1 m2 d2 : Int)
    (hv1 : validCivil ⟨y, m1, d1⟩ = true) (hv2 : validCivil ⟨y, m2, d2⟩ = true)
    (h : m1 < m2 ∨ (m1 = m2 ∧ d1 < d2)) :
    daysFromCivil ⟨y, m1, d1⟩ < daysFromCivil ⟨y, m2, d2⟩ := by
  obtain ⟨a1, a2, a3, a4, a5, a6, a7⟩ := valid_bounds y m1 d1 hv1
  obtain ⟨b1, b2, b3, b4, b5, b6, b7⟩ := valid_bounds y m2 d2 hv2
  unfold daysFromCivil
  simp only []
  interval_cases m1 <;> interval_cases m2 <;> split_ifs <;> omega

theorem daysFromCivil_lt_of_lex (y1 m1 d1 y2 m2 d2 : Int)
    (hv1 : validCivil ⟨y1, m1, d1⟩ = true) (hv2 : validCivil ⟨y2, m2, d2⟩ = true)
    (h : y1 < y2 ∨ (y1 = y2 ∧ (m1 < m2 ∨ (m1 = m2 ∧ d1 < d2)))) :
    daysFromCivil ⟨y1, m1, d1⟩ < daysFromCivil ⟨y2, m2, d2⟩ := by
  rcases h with hy | ⟨hy, hmd⟩
  · have h1 := days_lt_jan1_next y1 m1 d1 hv1
    have h2 := jan1_le_mono (y1 + 1) y2 (by omega)
    have h3 := days_jan1_le y2 m2 d2 hv2
    omega
  · subst hy
    exact days_sameYear_lt y1 m1 d1 m2 d2 hv1 hv2 hmd

/-- Lexicographic order of the civil-date components of two day
numbers coincides with the order of the day numbers themselves. -/
theorem civilFromDays_lex_iff (z1 z2 : Int) :
    (yearOf z1 < yearOf z2 ∨ (yearOf z1 = yearOf z2 ∧
      (monthOf z1 < monthOf z2 ∨
        (monthOf z1 = monthOf z2 ∧ dayOf z1 ≤ dayOf z2)))) ↔
    z1 ≤ z2 := by
  have hv1 := validCivil_civilFromDays z1
  have hv2 := validCivil_civilFromDays z2
  have hr1 := daysFromCivil_civilFromDays z1
  have hr2 := daysFromCivil_civilFromDays z2
  constructor
  · intro h
    by_contra hz
    rcases (by omega :
        (yearOf z1 < yearOf z2 ∨ (yearOf z1 = yearOf z2 ∧
          (monthOf z1 < monthOf z2 ∨
            (monthOf z1 = monthOf z2 ∧ dayOf z1 < dayOf z2)))) ∨
        (yearOf z1 = yearOf z2 ∧ monthOf z1 = monthOf z2 ∧
          dayOf z1 = dayOf z2)) with hstrict | heq
    · have hlt := daysFromCivil_lt_of_lex (yearOf z1) (monthOf z1) (dayOf z1)
        (yearOf z2) (monthOf z2) (dayOf z2) hv1 hv2 hstrict
      have hlt2 : z1 < z2 := by rw [← hr1, ← hr2]; exact hlt
      omega
    · have heq2 : (⟨yearOf z1, monthOf z1, dayOf z1⟩ : Civil) =
          ⟨yearOf z2, monthOf z2, dayOf z2⟩ := by
        rw [heq.1, heq.2.1, heq.2.2]
      have hz12 : z1 = z2 := by
        rw [← hr1, ← hr2]; exact congrArg daysFromCivil heq2
      omega
  · intro hz
    by_contra hcon
    have hstrict : yearOf z2 < yearOf z1 ∨ (yearOf z2 = yearOf z1 ∧
        (monthOf z2 < monthOf z1 ∨
          (monthOf z2 = monthOf z1 ∧ dayOf z2 < dayOf z1))) := by omega
    have hlt := daysFromCivil_lt_of_lex (yearOf z2) (monthOf z2) (dayOf z2)
      (yearOf z1) (monthOf z1) (dayOf z1) hv2 hv1 hstrict
    have hlt2 : z2 < z1 := by rw [← hr1, ← hr2]; exact hlt
    omega
theorem formatCivil_le_iff (y1 m1 d1 y2 m2 d2 : Int)
    (hb : 0 ≤ y1 ∧ y1 ≤ 9999 ∧ 0 ≤ m1 ∧ m1 ≤ 99 ∧ 0 ≤ d1 ∧ d1 ≤ 99 ∧
          0 ≤ y2 ∧ y2 ≤ 9999 ∧ 0 ≤ m2 ∧ m2 ≤ 99 ∧ 0 ≤ d2 ∧ d2 ≤ 99) :
    strLe (formatCivil ⟨y1, m1, d1⟩) (formatCivil ⟨y2, m2, d2⟩) = true ↔
      (y1 < y2 ∨ (y1 = y2 ∧ (m1 < m2 ∨ (m1 = m2 ∧ d1 ≤ d2)))) := by
  obtain ⟨e1, e2, e3, e4, e5, e6, e7, e8, e9, e10, e11, e12⟩ := hb
  unfold strLe formatCivil
  rw [toList_mk, toList_mk]
  simp only []
  rw [charListLe_append_same_length (pad4 y1.toNat) (pad4 y2.toNat) _ _ rfl]
  by_cases hy : pad4 y1.toNat = pad4 y2.toNat
  · rw [if_pos hy]
    have hyy : y1 = y2 := by
      have := (pad4_inj y1.toNat y2.toNat (by omega) (by omega)).mp hy
      omega
    rw [charListLe_cons_same]
    rw [charListLe_append_same_length (pad2 m1.toNat) (pad2 m2.toNat) _ _ rfl]
    by_cases hm : pad2 m1.toNat = pad2 m2.toNat
    · rw [if_pos hm]
      have hmm : m1 = m2 := by
        have := (pad2_inj m1.toNat m2.toNat (by omega) (by omega)).mp hm
        omega
      rw [charListLe_cons_same]
      rw [charListLe_pad2_iff d1.toNat d2.toNat (by omega) (by omega)]
      omega
    · rw [if_neg hm]
      have hmm : ¬ m1 = m2 := by
        intro hc
        exact hm (by rw [hc])
      rw [charListLe_pad2_iff m1.toNat m2.toNat (by omega) (by omega)]
      omega
  · rw [if_neg hy]
    have hyy : ¬ y1 = y2 := by
      intro hc
      exact hy (by rw [hc])
    rw [charListLe_pad4_iff y1.toNat y2.toNat (by omega) (by omega)]
    omega

/-- Lexicographic order of two day-mode bucket keys (ISO `YYYY-MM-DD`
renderings) coincides with the order of the underlying calendar days. -/
theorem isoDateOfMs_le_iff (ts1 ts2 : Int) (h0 : 0 ≤ ts1)
    (h1 : ts1 < 253402300800000) (h2 : 0 ≤ ts2) (h3 : ts2 < 253402300800000) :
    strLe (isoDateOfMs ts1) (isoDateOfMs ts2) = true ↔
      ts1 / 86400000 ≤ ts2 / 86400000 := by
  have hy1 := yearOf_range (ts1 / 86400000) (by omega) (by omega)
  have hy2 := yearOf_range (ts2 / 86400000) (by omega) (by omega)
  have hm1 := monthOf_bounds (ts1 / 86400000)
  have hm2 := monthOf_bounds (ts2 / 86400000)
  have hd1 := dayOf_bounds (ts1 / 86400000)
  have hd2 := dayOf_bounds (ts2 / 86400000)
  unfold isoDateOfMs
  rw [show civilFromDays (ts1 / 86400000) =
        ⟨yearOf (ts1 / 86400000), monthOf (ts1 / 86400000), dayOf (ts1 / 86400000)⟩
      from rfl,
      show civilFromDays (ts2 / 86400000) =
        ⟨yearOf (ts2 / 86400000), monthOf (ts2 / 86400000), dayOf (ts2 / 86400000)⟩
      from rfl]
  rw [formatCivil_le_iff _ _ _ _ _ _ (by omega)]
  exact civilFromDays_lex_iff (ts1 / 86400000) (ts2 / 86400000)

theorem monthKeyChars_le_iff (y1 m1 y2 m2 : Nat)
    (hy1 : y1 ≤ 9999) (hy2 : y2 ≤ 9999) (hm1 : m1 ≤ 99) (hm2 : m2 ≤ 99) :
    charListLe (pad4 y1 ++ '-' :: pad2 m1) (pad4 y2 ++ '-' :: pad2 m2) = true ↔
      (y1 < y2 ∨ (y1 = y2 ∧ m1 ≤ m2)) := by
  rw [charListLe_append_same_length (pad4 y1) (pad4 y2) _ _ rfl]
  by_cases hy : pad4 y1 = pad4 y2
  · rw [if_pos hy, charListLe_cons_same, charListLe_pad2_iff m1 m2 hm1 hm2]
    have := (pad4_inj y1 y2 hy1 hy2).mp hy
    omega
  · rw [if_neg hy, charListLe_pad4_iff y1 y2 hy1 hy2]
    have hne : ¬ y1 = y2 := by
      intro hc
      exact hy (by rw [hc])
    omega

theorem getMonthString_eq (ts : Int) (h0 : 0 ≤ ts) (h1 : ts < 253402300800000) :
    getMonthString ts = String.mk (pad4 (yearOf (ts / 86400000)).toNat ++
      '-' :: pad2 (monthOf (ts / 86400000)).toNat) := by
  have hyr := yearOf_range (ts / 86400000) (by omega) (by omega)
  unfold getMonthString natToString
  rw [natDigits_four (yearOf (ts / 86400000)).toNat (by omega) (by omega)]
  rfl

/-- Lexicographic order of two month-mode bucket keys (`YYYY-MM`)
coincides with the chronological order of the (year, month) pairs. -/
theorem getMonthString_le_iff (ts1 ts2 : Int) (h0 : 0 ≤ ts1)
    (h1 : ts1 < 253402300800000) (h2 : 0 ≤ ts2) (h3 : ts2 < 253402300800000) :
    strLe (getMonthString ts1) (getMonthString ts2) = true ↔
      (yearOf (ts1 / 86400000) < yearOf (ts2 / 86400000) ∨
       (yearOf (ts1 / 86400000) = yearOf (ts2 / 86400000) ∧
        monthOf (ts1 / 86400000) ≤ monthOf (ts2 / 86400000))) := by
  have hy1 := yearOf_range (ts1 / 86400000) (by omega) (by omega)
  have hy2 := yearOf_range (ts2 / 86400000) (by omega) (by omega)
  have hm1 := monthOf_bounds (ts1 / 86400000)
  have hm2 := monthOf_bounds (ts2 / 86400000)
  rw [getMonthString_eq ts1 h0 h1, getMonthString_eq ts2 h2 h3]
  unfold strLe
  rw [toList_mk, toList_mk]
  rw [monthKeyChars_le_iff _ _ _ _ (by omega) (by omega) (by omega) (by omega)]
  omega

/-- C4 counterexample: in week mode, records dated 2024-01-08 (week 2)
and 2024-03-05 (week 10) produce the trend keys `2024-W10` before
`2024-W2` — lexicographically ascending, but chronologically reversed,
because the unpadded week number makes `2024-W2` lexicographically
greater than `2024-W10`. -/
theorem C4_counterexample :
    (processedData
        [SalesData.mk "a" "2024-01-08" "A" "X" 1 100 1704672000000,
         SalesData.mk "b" "2024-03-05" "A" "Y" 1 50 1709596800000]
        (DateRange.mk "2024-01-01" "2024-12-31") ViewMode.week "all" false).map
      (fun vm => vm.trendData.map (fun bk => bk.date)) =
      some ["2024-W10", "2024-W2"] ∧
    getWeekString 1704672000000 = "2024-W2" ∧
    getWeekString 1709596800000 = "2024-W10" ∧
    (1704672000000 : Int) < 1709596800000 ∧
    strLe "2024-W2" "2024-W10" = false := by
  refine ⟨by decide, by decide, by decide, by decide, by decide⟩

/-- C4 (amended): the emitted trend buckets are always sorted by key
in ascending lexicographic order; for day keys (`YYYY-MM-DD`) and
month keys (`YYYY-MM`) that order coincides with chronological order,
but for the unpadded week keys it does not (see the counterexample). -/
theorem C4_trend_order :
    (∀ (externalData : List SalesData) (dateRange : DateRange)
      (viewMode : ViewMode) (selectedProduct : String)
      (isGroupByCategory : Bool) (vm : ViewModel),
      processedData externalData dateRange viewMode selectedProduct
        isGroupByCategory = some vm →
      vm.trendData.Pairwise (fun u v => strLe u.date v.date = true)) ∧
    (∀ ts1 ts2 : Int, 0 ≤ ts1 → ts1 < 253402300800000 → 0 ≤ ts2 →
      ts2 < 253402300800000 →
      (strLe (isoDateOfMs ts1) (isoDateOfMs ts2) = true ↔
        ts1 / 86400000 ≤ ts2 / 86400000)) ∧
    (∀ ts1 ts2 : Int, 0 ≤ ts1 → ts1 < 253402300800000 → 0 ≤ ts2 →
      ts2 < 253402300800000 →
      (strLe (getMonthString ts1) (getMonthString ts2) = true ↔
        (yearOf (ts1 / 86400000) < yearOf (ts2 / 86400000) ∨
         (yearOf (ts1 / 86400000) = yearOf (ts2 / 86400000) ∧
          monthOf (ts1 / 86400000) ≤ monthOf (ts2 / 86400000))))) :=
  ⟨fun a b c d e f h => processedData_trend_sorted a b c d e f h,
   fun ts1 ts2 h0 h1 h2 h3 => isoDateOfMs_le_iff ts1 ts2 h0 h1 h2 h3,
   fun ts1 ts2 h0 h1 h2 h3 => getMonthString_le_iff ts1 ts2 h0 h1 h2 h3⟩

/-- C4 witness: the three parts of the amended theorem applied at
concrete inputs. -/
theorem C4_witness :
    ([Bucket.mk "2024-W10" 50 1 [], Bucket.mk "2024-W2" 100 1 []] :
        List Bucket).Pairwise (fun u v => strLe u.date v.date = true) ∧
    (strLe (isoDateOfMs 1704672000000) (isoDateOfMs 1709596800000) = true ↔
      (1704672000000 : Int) / 86400000 ≤ 1709596800000 / 86400000) ∧
    (strLe (getMonthString 1704672000000) (getMonthString 1709596800000) = true ↔
      (yearOf ((1704672000000 : Int) / 86400000) <
          yearOf ((1709596800000 : Int) / 86400000) ∨
       (yearOf ((1704672000000 : Int) / 86400000) =
          yearOf ((1709596800000 : Int) / 86400000) ∧
        monthOf ((1704672000000 : Int) / 86400000) ≤
          monthOf ((1709596800000 : Int) / 86400000)))) :=
  ⟨C4_trend_order.1
      [SalesData.mk "a" "2024-01-08" "A" "X" 1 100 1704672000000,
       SalesData.mk "b" "2024-03-05" "A" "Y" 1 50 1709596800000]
      (DateRange.mk "2024-01-01" "2024-12-31") ViewMode.week "all" false
      (ViewModel.mk
        [SalesData.mk "a" "2024-01-08" "A" "X" 1 100 1704672000000,
         SalesData.mk "b" "2024-03-05" "A" "Y" 1 50 1709596800000]
        150 2 "X"
        [Bucket.mk "2024-W10" 50 1 [], Bucket.mk "2024-W2" 100 1 []]
        [("A", 150)])
      (by decide),
   C4_trend_order.2.1 1704672000000 1709596800000
      (by decide) (by decide) (by decide) (by decide),
   C4_trend_order.2.2 1704672000000 1709596800000
      (by decide) (by decide) (by decide) (by decide)⟩
